import Mathlib

/-!
# Verification of the todo-api repository core

Shallow embedding of `src/todo-api/src/repositories.rs`:
the `Todo` data model, the in-memory repository
(`TodoRepositoryForMemory`, a `HashMap<i32, Todo>` behind a lock,
modelled sequentially as an association list with HashMap semantics)
and the persistent repository (`TodoRepositoryForDb`, modelled with the
database as a keyed row store plus an auto-increment sequence; the SQL
statement files are not part of the sources, so their effect is modelled
from the spec).  Operations are executed sequentially; the lock and the
transaction are therefore collapsed, but each database operation also
records a trace of the connections it touches, so that "which statement
ran on the transaction and which on the pool" remains observable.
-/

namespace TodoApi

/-- `struct Todo { id: i32, text: String, completed: bool }`.
Equality is structural (derive PartialEq). -/
structure Todo where
  id : Int
  text : String
  completed : Bool
deriving DecidableEq, Repr

/-- `struct CreateTodo { text: String }`. -/
structure CreateTodo where
  text : String
deriving DecidableEq, Repr

/-- `struct UpdateTodo { text: Option<String>, completed: Option<bool> }`. -/
structure UpdateTodo where
  text : Option String
  completed : Option Bool
deriving DecidableEq, Repr

/-- `enum RepositoryError { Unexpected(String), NotFound(i32) }`. -/
inductive RepositoryError where
  | Unexpected (detail : String)
  | NotFound (id : Int)
deriving DecidableEq, Repr

/-- `Todo::new(id, text)` — completed defaults to `false`. -/
def Todo.new (id : Int) (text : String) : Todo :=
  { id := id, text := text, completed := false }

/-- The `validator` constraints on `CreateTodo.text`:
`length(min = 1)` and `length(max = 100)`. -/
def CreateTodo.valid (p : CreateTodo) : Prop :=
  1 ≤ p.text.length ∧ p.text.length ≤ 100

instance (p : CreateTodo) : Decidable p.valid := by
  unfold CreateTodo.valid; infer_instance

/-- `usize as i32`: truncate to the low 32 bits, two's complement. -/
def usizeToI32 (n : Nat) : Int :=
  if n % 2 ^ 32 < 2 ^ 31 then ((n % 2 ^ 32 : Nat) : Int)
  else ((n % 2 ^ 32 : Nat) : Int) - 2 ^ 32

/-! ## The backing map

`type TodoDatas = HashMap<i32, Todo>`, modelled as an association list
with the operations the repository uses: `get`, `insert` (replace the
entry with that key, if any), `remove`, `len`, `values`. -/

/-- The contents of the `HashMap<i32, Todo>` behind the lock. -/
abbrev TodoDatas := List (Int × Todo)

/-- `store.get(&k)` — the value stored under key `k`, if any. -/
def mapGet (s : TodoDatas) (k : Int) : Option Todo :=
  match s with
  | [] => none
  | (k2, v) :: rest => if k2 = k then some v else mapGet rest k

/-- Drop the entry with key `k`, if any (the removal part of HashMap
`insert`/`remove`; on a map-like list there is at most one). -/
def mapRemove (s : TodoDatas) (k : Int) : TodoDatas :=
  match s with
  | [] => []
  | e :: rest => if e.1 = k then mapRemove rest k else e :: mapRemove rest k

/-- `store.insert(k, v)` — replace any entry with key `k` by `(k, v)`. -/
def mapInsert (s : TodoDatas) (k : Int) (v : Todo) : TodoDatas :=
  (k, v) :: mapRemove s k

/-- `store.len()`. -/
def mapLen (s : TodoDatas) : Nat :=
  s.length

/-- `store.values().cloned()`. -/
def mapValues (s : TodoDatas) : List Todo :=
  s.map (fun e => e.2)

/-- A HashMap never holds two entries with the same key; association
lists representing one have pairwise distinct keys. -/
def NodupKeys (s : TodoDatas) : Prop :=
  (s.map (fun e => e.1)).Nodup

/-! ## `TodoRepositoryForMemory`

Each operation takes the map contents (the state behind the
`Arc<RwLock<_>>`) and returns the Rust result paired with the new
contents. -/

/-- `TodoRepositoryForMemory::create`:
`let id = (store.len() + 1) as i32; let todo = Todo::new(id, payload.text);
store.insert(id, todo.clone()); Ok(todo)`. -/
def memCreate (s : TodoDatas) (payload : CreateTodo) :
    Except RepositoryError Todo × TodoDatas :=
  let id := usizeToI32 (mapLen s + 1)
  let todo := Todo.new id payload.text
  (Except.ok todo, mapInsert s id todo)

/-- `TodoRepositoryForMemory::find`:
`store.get(&id).cloned().ok_or(RepositoryError::NotFound(id))`. -/
def memFind (s : TodoDatas) (id : Int) : Except RepositoryError Todo :=
  match mapGet s id with
  | some todo => Except.ok todo
  | none => Except.error (RepositoryError.NotFound id)

/-- `TodoRepositoryForMemory::all`:
`Ok(Vec::from_iter(store.values().cloned()))`. -/
def memAll (s : TodoDatas) : Except RepositoryError (List Todo) :=
  Except.ok (mapValues s)

/-- `TodoRepositoryForMemory::update`: read the stored todo (NotFound if
absent), take each payload field or fall back to the stored one, build
`Todo { id, text, completed }` with `id` the parameter, insert, return it. -/
def memUpdate (s : TodoDatas) (id : Int) (payload : UpdateTodo) :
    Except RepositoryError Todo × TodoDatas :=
  match mapGet s id with
  | none => (Except.error (RepositoryError.NotFound id), s)
  | some old =>
      let text := payload.text.getD old.text
      let completed := payload.completed.getD old.completed
      let todo : Todo := { id := id, text := text, completed := completed }
      (Except.ok todo, mapInsert s id todo)

/-- `TodoRepositoryForMemory::delete`:
`store.remove(&id).ok_or(RepositoryError::NotFound(id))?`. -/
def memDelete (s : TodoDatas) (id : Int) :
    Except RepositoryError Unit × TodoDatas :=
  match mapGet s id with
  | none => (Except.error (RepositoryError.NotFound id), s)
  | some _ => (Except.ok (), mapRemove s id)

/-- States of the in-memory store reachable from `TodoRepositoryForMemory::new()`
(the empty map) by the repository operations. -/
inductive Reachable : TodoDatas → Prop where
  | empty : Reachable []
  | create (s : TodoDatas) (p : CreateTodo) :
      Reachable s → Reachable (memCreate s p).2
  | update (s : TodoDatas) (id : Int) (p : UpdateTodo) :
      Reachable s → Reachable (memUpdate s id p).2
  | delete (s : TodoDatas) (id : Int) :
      Reachable s → Reachable (memDelete s id).2

/-- Every entry of the backing map stores a todo whose `id` field is the
key it is stored under. -/
def storeWF (s : TodoDatas) : Prop :=
  ∀ e ∈ s, (e.2).id = e.1

instance (s : TodoDatas) : Decidable (storeWF s) := by
  unfold storeWF; infer_instance

instance decEqExcept {ε α : Type} [DecidableEq ε] [DecidableEq α] :
    DecidableEq (Except ε α) := fun x y =>
  match x, y with
  | Except.ok a, Except.ok b =>
      if h : a = b then isTrue (congrArg Except.ok h)
      else isFalse (fun hc => h (Except.ok.inj hc))
  | Except.ok _, Except.error _ => isFalse (fun hc => Except.noConfusion hc)
  | Except.error _, Except.ok _ => isFalse (fun hc => Except.noConfusion hc)
  | Except.error e, Except.error f =>
      if h : e = f then isTrue (congrArg Except.error h)
      else isFalse (fun hc => h (Except.error.inj hc))

/-- Run a sequence of `create` calls, left to right. -/
def createMany (s : TodoDatas) : List CreateTodo → TodoDatas
  | [] => s
  | p :: ps => createMany (memCreate s p).2 ps

/-- Run a sequence of `delete` calls, left to right; the flag records
whether every call returned `Ok`. -/
def deleteMany (s : TodoDatas) : List Int → Bool × TodoDatas
  | [] => (true, s)
  | d :: ds =>
      let r := memDelete s d
      let rest := deleteMany r.2 ds
      ((match r.1 with
        | Except.ok _ => true
        | Except.error _ => false) && rest.1, rest.2)

/-- Summary of a store at the level the create/delete counting argument
needs: keys are pairwise distinct, the entry count is the cardinality of
the live-key set `K`, and key `k` holds a todo with id `k` exactly when
`k ∈ K`. -/
def StoreIds (s : TodoDatas) (K : Finset Int) : Prop :=
  NodupKeys s ∧ mapLen s = K.card ∧
  ∀ k : Int, (mapGet s k).map Todo.id = if k ∈ K then some k else none

/-! ## `TodoRepositoryForDb`

The database is modelled as a keyed row store plus the auto-increment
sequence feeding the primary key.  The SQL statement files
(`sql/insertTodo.sql`, `sql/findTodo.sql`, `sql/updateTodo.sql`,
`sql/deleteTodo.sql`) are not among the sources; their effect is
modelled from the spec (§4.3): insert assigns the next value of an
auto-incrementing key and returns the stored row, find selects the row
by id, update writes the merged row and returns it, delete removes the
row by id.  Execution is sequential, so `begin`/`commit` collapse into
direct state updates, but every operation also returns the trace of
statements it issued, each tagged with the connection it ran on: the
transaction obtained from `self.pool.begin()`, or the bare pool
`&self.pool`. -/

/-- Which connection a statement ran on: the open transaction, or the
pool directly. -/
inductive DbConn where
  | tx
  | pool
deriving DecidableEq, Repr

/-- One step of a database operation, tagged with its connection. -/
inductive DbAction where
  | beginTx
  | readRow (conn : DbConn) (id : Int)
  | insertRow (conn : DbConn) (row : Todo)
  | writeRow (conn : DbConn) (row : Todo)
  | deleteRow (conn : DbConn) (id : Int)
  | commitTx
deriving DecidableEq, Repr

/-- The persistent backend's state: the todo rows (keyed by id) and the
auto-increment sequence behind the primary key. -/
structure DbState where
  rows : TodoDatas
  nextId : Int
deriving DecidableEq, Repr

/-- `TodoRepositoryForDb::find`: runs `sql/findTodo.sql` with
`fetch_one(&self.pool)`; `sqlx::Error::RowNotFound` (no result row) is
mapped to `RepositoryError::NotFound(id)`.  Read-only: returns the
result and the trace. -/
def dbFind (db : DbState) (id : Int) :
    Except RepositoryError Todo × List DbAction :=
  match mapGet db.rows id with
  | some row => (Except.ok row, [DbAction.readRow DbConn.pool id])
  | none => (Except.error (RepositoryError.NotFound id),
      [DbAction.readRow DbConn.pool id])

/-- `TodoRepositoryForDb::all`: runs `sql/allTodo.sql` with
`fetch_all(&self.pool)`. -/
def dbAll (db : DbState) : Except RepositoryError (List Todo) :=
  Except.ok (mapValues db.rows)

/-- `TodoRepositoryForDb::create`: begin a transaction, run
`sql/insertTodo.sql` (modelled from the spec: store
`Todo { id: nextId, text: payload.text, completed: false }` and return
it, advancing the sequence) on the transaction, commit. -/
def dbCreate (db : DbState) (payload : CreateTodo) :
    Except RepositoryError Todo × DbState × List DbAction :=
  let row : Todo := { id := db.nextId, text := payload.text, completed := false }
  (Except.ok row,
   { rows := mapInsert db.rows db.nextId row, nextId := db.nextId + 1 },
   [DbAction.beginTx, DbAction.insertRow DbConn.tx row, DbAction.commitTx])

/-- `TodoRepositoryForDb::update`: begin a transaction, then
`let old_todo = self.find(id).await?` — `find` executes on
`&self.pool`, NOT on the transaction — then run `sql/updateTodo.sql`
with `payload.text.unwrap_or(old_todo.text)` and
`payload.completed.unwrap_or(old_todo.completed)` on the transaction
(modelled from the spec: write the merged row under `id` and return
it), and commit. -/
def dbUpdate (db : DbState) (id : Int) (payload : UpdateTodo) :
    Except RepositoryError Todo × DbState × List DbAction :=
  match dbFind db id with
  | (Except.error e, tr) => (Except.error e, db, DbAction.beginTx :: tr)
  | (Except.ok old, tr) =>
      let text := payload.text.getD old.text
      let completed := payload.completed.getD old.completed
      let row : Todo := { id := id, text := text, completed := completed }
      (Except.ok row,
       { db with rows := mapInsert db.rows id row },
       DbAction.beginTx :: tr ++ [DbAction.writeRow DbConn.tx row, DbAction.commitTx])

/-- `TodoRepositoryForDb::delete`: begin a transaction, run
`sql/deleteTodo.sql` (modelled from the spec: remove the row with that
id) with `.execute` on the transaction, commit.  In sqlx,
`Error::RowNotFound` arises only from `fetch_one`; `.execute` of a
DELETE that matches zero rows is a successful statement, so the
`RowNotFound => NotFound` arm of the `map_err` in the source is
unreachable and the operation always returns `Ok(())`. -/
def dbDelete (db : DbState) (id : Int) :
    Except RepositoryError Unit × DbState × List DbAction :=
  (Except.ok (),
   { db with rows := mapRemove db.rows id },
   [DbAction.beginTx, DbAction.deleteRow DbConn.tx id, DbAction.commitTx])

/-! ## Map lemmas -/

theorem mapGet_remove (s : TodoDatas) (k : Int) (j : Int) :
    mapGet (mapRemove s k) j = if k = j then none else mapGet s j := by
  induction s with
  | nil => simp [mapRemove, mapGet]
  | cons e rest ih =>
      by_cases he : e.1 = k
      · rw [show mapRemove (e :: rest) k = mapRemove rest k by simp [mapRemove, he]]
        rw [ih]
        by_cases h : k = j
        · simp [h]
        · have hej : ¬ e.1 = j := fun hej => h (he ▸ hej)
          simp [mapGet, if_neg hej, h]
      · rw [show mapRemove (e :: rest) k = e :: mapRemove rest k by
          simp [mapRemove, he]]
        by_cases hej : e.1 = j
        · have h : ¬ k = j := fun hkj => he (hej.trans hkj.symm)
          simp [mapGet, hej, h]
        · simp only [mapGet, if_neg hej]
          exact ih

theorem mapGet_insert (s : TodoDatas) (k : Int) (v : Todo) (j : Int) :
    mapGet (mapInsert s k v) j = if k = j then some v else mapGet s j := by
  by_cases h : k = j
  · simp [mapInsert, mapGet, h]
  · simp [mapInsert, mapGet, h, mapGet_remove]

theorem mapRemove_of_get_none (s : TodoDatas) (k : Int)
    (h : mapGet s k = none) : mapRemove s k = s := by
  induction s with
  | nil => rfl
  | cons e rest ih =>
      by_cases he : e.1 = k
      · simp [mapGet, he] at h
      · simp only [mapGet, if_neg he] at h
        simp [mapRemove, he, ih h]

theorem mapLen_insert_of_get_none (s : TodoDatas) (k : Int) (v : Todo)
    (h : mapGet s k = none) : mapLen (mapInsert s k v) = mapLen s + 1 := by
  unfold mapInsert mapLen
  rw [mapRemove_of_get_none s k h]
  simp

theorem mapGet_none_of_not_mem_keys (s : TodoDatas) (k : Int)
    (h : k ∉ s.map (fun e => e.1)) : mapGet s k = none := by
  induction s with
  | nil => rfl
  | cons e rest ih =>
      simp only [List.map_cons, List.mem_cons, not_or] at h
      have he : ¬ e.1 = k := fun h1 => h.1 h1.symm
      simp only [mapGet, if_neg he]
      exact ih h.2

theorem mapLen_remove_of_get_some (s : TodoDatas) (k : Int) (v : Todo)
    (hn : NodupKeys s) (h : mapGet s k = some v) :
    mapLen (mapRemove s k) = mapLen s - 1 := by
  induction s with
  | nil => simp [mapGet] at h
  | cons e rest ih =>
      unfold NodupKeys at hn
      simp only [List.map_cons, List.nodup_cons] at hn
      by_cases he : e.1 = k
      · have hrest : mapGet rest k = none := by
          apply mapGet_none_of_not_mem_keys
          rw [← he]; exact hn.1
        simp [mapRemove, mapLen, he, mapRemove_of_get_none rest k hrest]
      · simp only [mapGet, if_neg he] at h
        have hrest := ih hn.2 h
        have hne : 1 ≤ mapLen rest := by
          cases rest with
          | nil => simp [mapGet] at h
          | cons a l => simp [mapLen]
        simp only [mapRemove, if_neg he, mapLen, List.length_cons] at hrest ⊢
        simp only [mapLen] at hne
        omega

theorem mapRemove_sublist (s : TodoDatas) (k : Int) :
    (mapRemove s k).Sublist s := by
  induction s with
  | nil => simp [mapRemove]
  | cons e rest ih =>
      by_cases he : e.1 = k
      · simpa [mapRemove, he] using ih.cons e
      · simpa [mapRemove, he] using ih.cons₂ e

theorem not_mem_keys_remove (s : TodoDatas) (k : Int) :
    k ∉ (mapRemove s k).map (fun e => e.1) := by
  induction s with
  | nil => simp [mapRemove]
  | cons e rest ih =>
      by_cases he : e.1 = k
      · simpa [mapRemove, he] using ih
      · simp only [mapRemove, if_neg he, List.map_cons, List.mem_cons, not_or]
        exact ⟨fun h1 => he h1.symm, ih⟩

theorem nodupKeys_remove (s : TodoDatas) (k : Int) (h : NodupKeys s) :
    NodupKeys (mapRemove s k) := by
  unfold NodupKeys at *
  exact ((mapRemove_sublist s k).map _).nodup h

theorem nodupKeys_insert (s : TodoDatas) (k : Int) (v : Todo)
    (h : NodupKeys s) : NodupKeys (mapInsert s k v) := by
  unfold NodupKeys mapInsert
  simp only [List.map_cons, List.nodup_cons]
  exact ⟨not_mem_keys_remove s k, nodupKeys_remove s k h⟩

theorem usizeToI32_small (n : Nat) (h : n < 2 ^ 31) :
    usizeToI32 n = (n : Int) := by
  have h32 : n < 2 ^ 32 := lt_trans h (by norm_num)
  unfold usizeToI32
  rw [Nat.mod_eq_of_lt h32, if_pos h]

theorem mapGet_of_mem (s : TodoDatas) (e : Int × Todo)
    (hn : NodupKeys s) (h : e ∈ s) : mapGet s e.1 = some e.2 := by
  induction s with
  | nil => simp at h
  | cons a rest ih =>
      unfold NodupKeys at hn
      simp only [List.map_cons, List.nodup_cons] at hn
      rcases List.mem_cons.mp h with h1 | h1
      · subst h1; simp [mapGet]
      · have ha : a.1 ≠ e.1 := by
          intro hae
          exact hn.1 (hae ▸ List.mem_map.mpr ⟨e, h1, rfl⟩)
        simp only [mapGet, ha, if_neg ha]
        exact ih hn.2 h1

theorem mem_keys_of_get_some (s : TodoDatas) (k : Int) (v : Todo)
    (h : mapGet s k = some v) : k ∈ s.map (fun e => e.1) := by
  induction s with
  | nil => simp [mapGet] at h
  | cons e rest ih =>
      by_cases he : e.1 = k
      · simp [he]
      · simp only [mapGet, he, if_neg he] at h
        simp [ih h]

theorem card_Icc_one (n : Nat) : (Finset.Icc 1 (n : Int)).card = n := by
  rw [Int.card_Icc]
  simp

theorem storeIds_empty : StoreIds [] (Finset.Icc 1 ((0 : Nat) : Int)) := by
  refine ⟨by simp [NodupKeys], by simp [mapLen, card_Icc_one], ?_⟩
  intro k
  have : ¬ k ∈ Finset.Icc (1 : Int) ((0 : Nat) : Int) := by
    simp only [Finset.mem_Icc]
    push_cast
    omega
  simp [mapGet, this]

theorem storeIds_create (s : TodoDatas) (n : Nat) (p : CreateTodo)
    (hs : StoreIds s (Finset.Icc 1 (n : Int))) (hn : n + 1 < 2 ^ 31) :
    StoreIds (memCreate s p).2 (Finset.Icc 1 ((n : Int) + 1)) := by
  obtain ⟨hnodup, hlen, hchar⟩ := hs
  have hlen' : mapLen s = n := by rw [hlen, card_Icc_one]
  have hid : usizeToI32 (mapLen s + 1) = (n : Int) + 1 := by
    rw [hlen', usizeToI32_small (n + 1) hn]
    push_cast
    ring
  have hfresh : mapGet s ((n : Int) + 1) = none := by
    have h1 : ¬ ((n : Int) + 1) ∈ Finset.Icc (1 : Int) (n : Int) := by
      simp only [Finset.mem_Icc]
      omega
    have := hchar ((n : Int) + 1)
    rw [if_neg h1] at this
    exact Option.map_eq_none'.mp this
  constructor
  · simp only [memCreate, hid]
    exact nodupKeys_insert s _ _ hnodup
  constructor
  · simp only [memCreate, hid]
    rw [mapLen_insert_of_get_none s _ _ hfresh, hlen']
    have hc : (Finset.Icc (1 : Int) ((n : Int) + 1)).card = n + 1 := by
      rw [Int.card_Icc]
      omega
    omega
  · intro k
    simp only [memCreate, hid]
    rw [mapGet_insert]
    by_cases hk : (n : Int) + 1 = k
    · subst hk
      rw [if_pos rfl,
        if_pos (show (n : Int) + 1 ∈ Finset.Icc (1 : Int) ((n : Int) + 1) by
          simp only [Finset.mem_Icc]; omega)]
      rfl
    · rw [if_neg hk, hchar k]
      refine if_congr ?_ rfl rfl
      simp only [Finset.mem_Icc]
      omega

theorem storeIds_createMany (ps : List CreateTodo) (s : TodoDatas) (n : Nat)
    (hs : StoreIds s (Finset.Icc 1 (n : Int)))
    (hn : n + ps.length < 2 ^ 31) :
    StoreIds (createMany s ps) (Finset.Icc 1 ((n : Int) + ps.length)) := by
  induction ps generalizing s n with
  | nil => simpa [createMany] using hs
  | cons p ps ih =>
      have h1 : n + 1 < 2 ^ 31 := by
        simp only [List.length_cons] at hn
        omega
      have step := storeIds_create s n p hs h1
      have step' : StoreIds (memCreate s p).2 (Finset.Icc 1 ((n + 1 : Nat) : Int)) := by
        have : ((n + 1 : Nat) : Int) = (n : Int) + 1 := by push_cast; ring
        rwa [this]
      have hn' : (n + 1) + ps.length < 2 ^ 31 := by
        simp only [List.length_cons] at hn
        omega
      have := ih (memCreate s p).2 (n + 1) step' hn'
      have hcast : ((n + 1 : Nat) : Int) + (ps.length : Int) =
          (n : Int) + ((p :: ps).length : Int) := by
        simp only [List.length_cons]
        push_cast
        ring
      rw [hcast] at this
      simpa [createMany] using this

theorem storeIds_deleteMany (ds : List Int) (s : TodoDatas) (K : Finset Int)
    (hs : StoreIds s K) (hd : ds.Nodup) (hds : ∀ d ∈ ds, d ∈ K) :
    (deleteMany s ds).1 = true ∧
    StoreIds (deleteMany s ds).2 (K \ ds.toFinset) := by
  induction ds generalizing s K with
  | nil => simpa [deleteMany] using hs
  | cons d ds ih =>
      obtain ⟨hnodup, hlen, hchar⟩ := hs
      have hdK : d ∈ K := hds d (List.mem_cons_self d ds)
      have hsome : ∃ v, mapGet s d = some v := by
        have := hchar d
        rw [if_pos hdK] at this
        rcases Option.map_eq_some'.mp this with ⟨v, hv, _⟩
        exact ⟨v, hv⟩
      obtain ⟨v, hv⟩ := hsome
      have hdel : memDelete s d = (Except.ok (), mapRemove s d) := by
        simp [memDelete, hv]
      have hs' : StoreIds (mapRemove s d) (K.erase d) := by
        refine ⟨nodupKeys_remove s d hnodup, ?_, ?_⟩
        · rw [mapLen_remove_of_get_some s d v hnodup hv, hlen,
            Finset.card_erase_of_mem hdK]
        · intro k
          rw [mapGet_remove]
          by_cases hk : d = k
          · subst hk
            rw [if_pos rfl, if_neg (by simp)]
            rfl
          · rw [if_neg hk, hchar k]
            refine if_congr ?_ rfl rfl
            constructor
            · intro h
              exact Finset.mem_erase.mpr ⟨fun hkd => hk hkd.symm, h⟩
            · intro h
              exact (Finset.mem_erase.mp h).2
      have hnd : ds.Nodup := (List.nodup_cons.mp hd).2
      have hdnotin : d ∉ ds := (List.nodup_cons.mp hd).1
      have hds' : ∀ e ∈ ds, e ∈ K.erase d := by
        intro e he
        refine Finset.mem_erase.mpr ⟨?_, hds e (List.mem_cons_of_mem d he)⟩
        intro hed
        exact hdnotin (hed ▸ he)
      have hrec := ih (mapRemove s d) (K.erase d) hs' hnd hds'
      have hKeq : K.erase d \ ds.toFinset = K \ (d :: ds).toFinset := by
        rw [List.toFinset_cons, Finset.sdiff_insert, ← Finset.erase_sdiff_comm]
      constructor
      · simp only [deleteMany, hdel]
        exact hrec.1
      · simp only [deleteMany, hdel]
        rw [← hKeq]
        exact hrec.2

theorem storeWF_of_storeIds (s : TodoDatas) (K : Finset Int)
    (hs : StoreIds s K) : storeWF s := by
  obtain ⟨hnodup, _, hchar⟩ := hs
  intro e he
  have hget := mapGet_of_mem s e hnodup he
  have := hchar e.1
  by_cases hk : e.1 ∈ K
  · rw [if_pos hk, hget] at this
    simpa using this
  · rw [if_neg hk, hget] at this
    simp at this

theorem mapValues_ids (s : TodoDatas) (hwf : storeWF s) :
    (mapValues s).map Todo.id = s.map (fun e => e.1) := by
  unfold mapValues
  rw [List.map_map]
  exact List.map_congr_left hwf

theorem exists_get_of_mem_keys (s : TodoDatas) (k : Int)
    (h : k ∈ s.map (fun e => e.1)) : ∃ v, mapGet s k = some v := by
  induction s with
  | nil => simp at h
  | cons e rest ih =>
      by_cases he : e.1 = k
      · exact ⟨e.2, by simp [mapGet, he]⟩
      · simp only [List.map_cons, List.mem_cons] at h
        rcases h with h1 | h1
        · exact absurd h1.symm he
        · simpa [mapGet, if_neg he] using ih h1

theorem mem_of_mapGet_some (s : TodoDatas) (k : Int) (v : Todo)
    (h : mapGet s k = some v) : (k, v) ∈ s := by
  induction s with
  | nil => simp [mapGet] at h
  | cons e rest ih =>
      by_cases he : e.1 = k
      · simp only [mapGet, if_pos he] at h
        have hkv : (k, v) = e := by
          rw [← he, ← Option.some_inj.mp h]
        rw [hkv]
        exact List.mem_cons_self e rest
      · simp only [mapGet, if_neg he] at h
        exact List.mem_cons_of_mem e (ih h)

theorem storeWF_remove (s : TodoDatas) (k : Int) (h : storeWF s) :
    storeWF (mapRemove s k) := by
  intro e he
  exact h e ((mapRemove_sublist s k).subset he)

theorem storeWF_insert (s : TodoDatas) (k : Int) (v : Todo)
    (h : storeWF s) (hv : v.id = k) : storeWF (mapInsert s k v) := by
  intro e he
  rcases List.mem_cons.mp he with h1 | h1
  · rw [h1]
    exact hv
  · exact storeWF_remove s k h e h1

theorem keys_toFinset_of_storeIds (s : TodoDatas) (K : Finset Int)
    (hs : StoreIds s K) : (s.map (fun e => e.1)).toFinset = K := by
  obtain ⟨hnodup, hlen, hchar⟩ := hs
  ext k
  simp only [List.mem_toFinset]
  constructor
  · intro hmem
    obtain ⟨v, hv⟩ := exists_get_of_mem_keys s k hmem
    have := hchar k
    by_cases hk : k ∈ K
    · exact hk
    · rw [if_neg hk, hv] at this
      simp at this
  · intro hk
    have := hchar k
    rw [if_pos hk] at this
    rcases Option.map_eq_some'.mp this with ⟨v, hv, _⟩
    exact mem_keys_of_get_some s k v hv

/-! ## Claims -/

/-- Claim C5: for every store state and valid CreateTodo payload,
`create` succeeds and returns a todo whose `completed` field is false
and whose `text` equals the payload's text, and the store now holds
exactly that todo at its id. -/
theorem claim_c5_create_stores_payload (s : TodoDatas) (p : CreateTodo)
    (_hp : p.valid) :
    ∃ t, (memCreate s p).1 = Except.ok t ∧ t.completed = false ∧
      t.text = p.text ∧ mapGet (memCreate s p).2 t.id = some t := by
  refine ⟨Todo.new (usizeToI32 (mapLen s + 1)) p.text, rfl, rfl, rfl, ?_⟩
  simp only [memCreate]
  rw [show (Todo.new (usizeToI32 (mapLen s + 1)) p.text).id
      = usizeToI32 (mapLen s + 1) from rfl]
  rw [mapGet_insert]
  simp

theorem claim_c5_create_stores_payload_witness :
    CreateTodo.valid { text := "buy milk" } ∧
    ∃ t, (memCreate [] { text := "buy milk" }).1 = Except.ok t ∧
      t.completed = false ∧
      t.text = ({ text := "buy milk" } : CreateTodo).text ∧
      mapGet (memCreate [] { text := "buy milk" }).2 t.id = some t :=
  ⟨by decide, claim_c5_create_stores_payload [] { text := "buy milk" } (by decide)⟩

/-- Claim C6: the id assigned by the in-memory `create` equals the
entry count at creation time plus one; on a store holding a single todo
with id 3 the assigned id is 2, not max-existing-id-plus-one (4). -/
theorem claim_c6_id_count_plus_one (s : TodoDatas) (p : CreateTodo)
    (h : mapLen s + 1 < 2 ^ 31) :
    (∃ t, (memCreate s p).1 = Except.ok t ∧ t.id = (mapLen s : Int) + 1) ∧
    (∃ t, (memCreate [(3, { id := 3, text := "x", completed := false })] p).1
        = Except.ok t ∧ t.id = 2 ∧ t.id ≠ 3 + 1) := by
  constructor
  · refine ⟨Todo.new (usizeToI32 (mapLen s + 1)) p.text, rfl, ?_⟩
    rw [show (Todo.new (usizeToI32 (mapLen s + 1)) p.text).id
        = usizeToI32 (mapLen s + 1) from rfl]
    rw [usizeToI32_small _ h]
    push_cast
    ring
  · refine ⟨Todo.new (usizeToI32 2) p.text, rfl, ?_, ?_⟩
    · rw [show (Todo.new (usizeToI32 2) p.text).id = usizeToI32 2 from rfl]
      decide
    · rw [show (Todo.new (usizeToI32 2) p.text).id = usizeToI32 2 from rfl]
      decide

theorem claim_c6_id_count_plus_one_witness :
    mapLen ([] : TodoDatas) + 1 < 2 ^ 31 ∧
    ((∃ t, (memCreate [] { text := "a" }).1 = Except.ok t ∧
        t.id = (mapLen ([] : TodoDatas) : Int) + 1) ∧
     (∃ t, (memCreate [(3, { id := 3, text := "x", completed := false })]
        { text := "a" }).1 = Except.ok t ∧ t.id = 2 ∧ t.id ≠ 3 + 1)) :=
  ⟨by decide, claim_c6_id_count_plus_one [] { text := "a" } (by decide)⟩

/-- Claim C7: if `create` returns a todo, then `find` on that todo's id,
performed on the resulting store with no intervening operation, succeeds
and returns a structurally equal todo. -/
theorem claim_c7_find_after_create (s : TodoDatas) (p : CreateTodo) (t : Todo)
    (h : (memCreate s p).1 = Except.ok t) :
    memFind (memCreate s p).2 t.id = Except.ok t := by
  have ht : Todo.new (usizeToI32 (mapLen s + 1)) p.text = t := by
    simpa only [memCreate, Except.ok.injEq] using h
  unfold memFind
  simp only [memCreate]
  rw [← ht]
  rw [show (Todo.new (usizeToI32 (mapLen s + 1)) p.text).id
      = usizeToI32 (mapLen s + 1) from rfl]
  rw [mapGet_insert]
  simp

theorem claim_c7_find_after_create_witness :
    (memCreate [] { text := "a" }).1 =
      Except.ok { id := 1, text := "a", completed := false } ∧
    memFind (memCreate [] { text := "a" }).2
      ({ id := 1, text := "a", completed := false } : Todo).id =
      Except.ok { id := 1, text := "a", completed := false } :=
  ⟨by decide, claim_c7_find_after_create [] { text := "a" }
    { id := 1, text := "a", completed := false } (by decide)⟩

/-- Claim C4: `update` on a live id applies exactly the payload fields
that are present and keeps absent fields and the id unchanged — in the
in-memory store and in the persistent adapter. -/
theorem claim_c4_update_frame (s : TodoDatas) (id : Int) (old : Todo)
    (payload : UpdateTodo) (db : DbState) (dbOld : Todo)
    (hwf : storeWF s) (hlive : mapGet s id = some old)
    (hdb : mapGet db.rows id = some dbOld) :
    (∃ t, (memUpdate s id payload).1 = Except.ok t ∧
      t.id = old.id ∧ t.text = payload.text.getD old.text ∧
      t.completed = payload.completed.getD old.completed ∧
      mapGet (memUpdate s id payload).2 id = some t) ∧
    (∃ t, (dbUpdate db id payload).1 = Except.ok t ∧
      t.id = id ∧ t.text = payload.text.getD dbOld.text ∧
      t.completed = payload.completed.getD dbOld.completed) := by
  have hid : old.id = id := hwf (id, old) (mem_of_mapGet_some s id old hlive)
  constructor
  · refine ⟨Todo.mk id (payload.text.getD old.text) (payload.completed.getD old.completed), ?_, ?_, rfl, rfl, ?_⟩
    · simp [memUpdate, hlive]
    · rw [hid]
    · simp only [memUpdate, hlive]
      rw [mapGet_insert]
      simp
  · refine ⟨Todo.mk id (payload.text.getD dbOld.text) (payload.completed.getD dbOld.completed), ?_, rfl, rfl, rfl⟩
    simp [dbUpdate, dbFind, hdb]

theorem claim_c4_update_frame_witness :
    storeWF [((1 : Int), Todo.mk 1 "a" false)] ∧
    ((∃ t, (memUpdate [((1 : Int), Todo.mk 1 "a" false)]
        1 (UpdateTodo.mk (some "b") none)).1 = Except.ok t ∧
      t.id = (Todo.mk 1 "a" false).id ∧
      t.text = (some "b").getD (Todo.mk 1 "a" false).text ∧
      t.completed = (none : Option Bool).getD (Todo.mk 1 "a" false).completed ∧
      mapGet (memUpdate [((1 : Int), Todo.mk 1 "a" false)]
        1 (UpdateTodo.mk (some "b") none)).2 1 = some t) ∧
    (∃ t, (dbUpdate (DbState.mk [((1 : Int), Todo.mk 1 "x" true)] 2)
        1 (UpdateTodo.mk (some "b") none)).1 = Except.ok t ∧
      t.id = 1 ∧
      t.text = (some "b").getD (Todo.mk 1 "x" true).text ∧
      t.completed = (none : Option Bool).getD (Todo.mk 1 "x" true).completed)) :=
  ⟨by decide,
   claim_c4_update_frame [((1 : Int), Todo.mk 1 "a" false)]
     1 (Todo.mk 1 "a" false)
     (UpdateTodo.mk (some "b") none)
     (DbState.mk [((1 : Int), Todo.mk 1 "x" true)] 2)
     (Todo.mk 1 "x" true)
     (by decide) (by decide) (by decide)⟩

/-- Claim C3: starting from the empty in-memory store, after N
successful creates (any texts) followed by deletes of pairwise distinct
previously created ids, every delete succeeds and `all` returns exactly
N - M todos whose id set is the created ids minus the deleted ids. -/
theorem claim_c3_all_after_creates_deletes (ps : List CreateTodo) (ds : List Int)
    (hN : ps.length < 2 ^ 31) (hd : ds.Nodup)
    (hds : ∀ d ∈ ds, d ∈ Finset.Icc 1 (ps.length : Int)) :
    (deleteMany (createMany [] ps) ds).1 = true ∧
    ∃ l, memAll (deleteMany (createMany [] ps) ds).2 = Except.ok l ∧
      l.length = ps.length - ds.length ∧
      (l.map Todo.id).toFinset = Finset.Icc 1 (ps.length : Int) \ ds.toFinset := by
  have h1 := storeIds_createMany ps [] 0 storeIds_empty (by simpa using hN)
  have hcast : ((0 : Nat) : Int) + (ps.length : Int) = (ps.length : Int) := by
    push_cast
    ring
  rw [hcast] at h1
  have h2 := storeIds_deleteMany ds (createMany [] ps)
    (Finset.Icc 1 (ps.length : Int)) h1 hd hds
  refine ⟨h2.1, mapValues (deleteMany (createMany [] ps) ds).2, rfl, ?_, ?_⟩
  · obtain ⟨_, hlen, _⟩ := h2.2
    have hsub : ds.toFinset ⊆ Finset.Icc 1 (ps.length : Int) := by
      intro d hd'
      exact hds d (List.mem_toFinset.mp hd')
    have hlen2 : (mapValues (deleteMany (createMany [] ps) ds).2).length =
        mapLen (deleteMany (createMany [] ps) ds).2 := by
      simp [mapValues, mapLen]
    rw [hlen2, hlen, Finset.card_sdiff hsub, card_Icc_one,
      List.toFinset_card_of_nodup hd]
  · rw [mapValues_ids _ (storeWF_of_storeIds _ _ h2.2)]
    exact keys_toFinset_of_storeIds _ _ h2.2

theorem claim_c3_all_after_creates_deletes_witness :
    (deleteMany (createMany [] [{ text := "a" }, { text := "b" }]) [1]).1 = true ∧
    ∃ l, memAll (deleteMany (createMany []
        [{ text := "a" }, { text := "b" }]) [1]).2 = Except.ok l ∧
      l.length = ([{ text := "a" }, { text := "b" }] : List CreateTodo).length -
        ([(1 : Int)]).length ∧
      (l.map Todo.id).toFinset =
        Finset.Icc 1 (([{ text := "a" }, { text := "b" }] : List CreateTodo).length : Int)
          \ ([(1 : Int)]).toFinset :=
  claim_c3_all_after_creates_deletes [{ text := "a" }, { text := "b" }] [1]
    (by decide) (by decide)
    (by intro d hmem
        rw [List.mem_singleton.mp hmem]
        simp [Finset.mem_Icc])

/-- Claim C9: every store reachable from the empty in-memory store by
create, update and delete operations stores, under every key, a todo
whose id field equals that key. -/
theorem claim_c9_key_id_invariant (s : TodoDatas) (h : Reachable s) :
    storeWF s := by
  induction h with
  | empty => intro e he; simp at he
  | create s p _ ih =>
      simp only [memCreate]
      exact storeWF_insert s _ _ ih rfl
  | update s id p _ ih =>
      simp only [memUpdate]
      cases hget : mapGet s id with
      | none => exact ih
      | some old => exact storeWF_insert s id _ ih rfl
  | delete s id _ ih =>
      simp only [memDelete]
      cases hget : mapGet s id with
      | none => exact ih
      | some v => exact storeWF_remove s id ih

theorem claim_c9_key_id_invariant_witness :
    storeWF (memCreate [] { text := "a" }).2 :=
  claim_c9_key_id_invariant _ (Reachable.create [] { text := "a" } Reachable.empty)

/-- Claim C10: update with both payload fields absent on a live id
succeeds, returns the todo already stored there, and leaves the store
contents unchanged. -/
theorem claim_c10_identity_update (s : TodoDatas) (id : Int) (old : Todo)
    (hwf : storeWF s) (hlive : mapGet s id = some old) :
    (memUpdate s id { text := none, completed := none }).1 = Except.ok old ∧
    ∀ j : Int,
      mapGet (memUpdate s id { text := none, completed := none }).2 j =
        mapGet s j := by
  have hid : old.id = id := hwf (id, old) (mem_of_mapGet_some s id old hlive)
  have hold : ({ id := id, text := old.text, completed := old.completed } : Todo)
      = old := by
    rw [← hid]
  constructor
  · simp [memUpdate, hlive, hold]
  · intro j
    simp only [memUpdate, hlive]
    rw [mapGet_insert]
    simp only [Option.getD_none]
    rw [hold]
    by_cases hj : id = j
    · rw [if_pos hj, ← hj, hlive]
    · rw [if_neg hj]

theorem claim_c10_identity_update_witness :
    storeWF [((1 : Int), { id := 1, text := "a", completed := false })] ∧
    ((memUpdate [((1 : Int), { id := 1, text := "a", completed := false })] 1
        { text := none, completed := none }).1 =
      Except.ok { id := 1, text := "a", completed := false } ∧
    ∀ j : Int,
      mapGet (memUpdate [((1 : Int), { id := 1, text := "a", completed := false })]
        1 { text := none, completed := none }).2 j =
      mapGet [((1 : Int), { id := 1, text := "a", completed := false })] j) :=
  ⟨by decide,
   claim_c10_identity_update [((1 : Int), { id := 1, text := "a", completed := false })]
     1 { id := 1, text := "a", completed := false } (by decide) (by decide)⟩

/-- Claim C1 fails on the code: after create "a", create "b", delete 1 —
a reachable state whose only live todo has id 2 — the store has one
entry, so the next create computes id `1 + 1 = 2`, returns a todo whose
id equals the live id 2, and overwrites the live todo. -/
theorem claim_c1_create_overwrites_live_todo :
    Reachable [((2 : Int), Todo.mk 2 "b" false)] ∧
    mapGet [((2 : Int), Todo.mk 2 "b" false)] 2 = some (Todo.mk 2 "b" false) ∧
    (memCreate [((2 : Int), Todo.mk 2 "b" false)] (CreateTodo.mk "c")).1 =
      Except.ok (Todo.mk 2 "c" false) ∧
    mapGet (memCreate [((2 : Int), Todo.mk 2 "b" false)] (CreateTodo.mk "c")).2 2 =
      some (Todo.mk 2 "c" false) := by
  refine ⟨?_, by decide, by decide, by decide⟩
  have h1 : Reachable (memCreate [] (CreateTodo.mk "a")).2 :=
    Reachable.create [] (CreateTodo.mk "a") Reachable.empty
  have h2 : Reachable
      (memCreate (memCreate [] (CreateTodo.mk "a")).2 (CreateTodo.mk "b")).2 :=
    Reachable.create _ (CreateTodo.mk "b") h1
  have h3 := Reachable.delete _ 1 h2
  have heq :
      (memDelete (memCreate (memCreate [] (CreateTodo.mk "a")).2 (CreateTodo.mk "b")).2 1).2
        = [((2 : Int), Todo.mk 2 "b" false)] := by decide
  rwa [heq] at h3

/-- Claim C2 fails on the code for the persistent backend's delete: on a
database holding only the row with id 1, the first delete succeeds and
removes the row, and a second delete of the same id — now with no live
row — again returns success instead of NotFound, because a DELETE
affecting zero rows is not an error for `.execute`. -/
theorem claim_c2_db_delete_missing_returns_ok :
    (dbDelete (DbState.mk [((1 : Int), Todo.mk 1 "buy milk" false)] 2) 1).1 =
      Except.ok () ∧
    mapGet (dbDelete (DbState.mk [((1 : Int), Todo.mk 1 "buy milk" false)] 2) 1).2.1.rows 1
      = none ∧
    (dbDelete (dbDelete (DbState.mk [((1 : Int), Todo.mk 1 "buy milk" false)] 2) 1).2.1 1).1
      = Except.ok () :=
  ⟨rfl, by decide, rfl⟩

/-- Claim C8 fails on the code: updating todo 1 begins a transaction but
issues the read of the current row through the connection pool, outside
that transaction; no read at all runs on the transaction. -/
theorem claim_c8_db_update_reads_on_pool :
    (dbUpdate (DbState.mk [((1 : Int), Todo.mk 1 "buy milk" false)] 2) 1
        (UpdateTodo.mk none (some true))).2.2 =
      [DbAction.beginTx, DbAction.readRow DbConn.pool 1,
       DbAction.writeRow DbConn.tx (Todo.mk 1 "buy milk" true), DbAction.commitTx] ∧
    DbAction.readRow DbConn.pool 1 ∈
      (dbUpdate (DbState.mk [((1 : Int), Todo.mk 1 "buy milk" false)] 2) 1
        (UpdateTodo.mk none (some true))).2.2 ∧
    DbAction.readRow DbConn.tx 1 ∉
      (dbUpdate (DbState.mk [((1 : Int), Todo.mk 1 "buy milk" false)] 2) 1
        (UpdateTodo.mk none (some true))).2.2 := by
  refine ⟨by decide, by decide, by decide⟩

end TodoApi
